import Mathlib

/-!
Verification of the codn LSP reference-harvester core.

Shallow embedding of the relevant parts of `codn/utils/base_lsp_client.py`
and `codn/utils/lsp_core.py`.  Python strings are embedded as `List Char`
(Python string indices are code-point indices, which match list positions);
Python dicts keyed by strings are embedded as functions `String → Option _`;
the stateful client operations become explicit state-passing functions that
also return the list of LSP notifications they emit.
-/

/-- Python strings, embedded as lists of characters. -/
abbrev PyStr := List Char

/-- Python `s.index(p) / p in s`: index of the first occurrence of `p`
as a substring of `s`, or `none`. -/
def pyIndexOf : List Char → List Char → Option Nat
  | [], p => if p.isPrefixOf ([] : List Char) then some 0 else none
  | c :: t, p =>
    if p.isPrefixOf (c :: t) then some 0
    else (pyIndexOf t p).map (· + 1)

/-- Python `p in s` (substring containment). -/
def pyContains (s p : PyStr) : Bool := (pyIndexOf s p).isSome

/-- Python `s.startswith(p)`. -/
def pyStartsWith (s p : PyStr) : Bool := p.isPrefixOf s

/-- Python `s.lstrip()`. -/
def pyLStrip (s : PyStr) : PyStr := s.dropWhile Char.isWhitespace

/-- Python `s.rstrip()`. -/
def pyRStrip (s : PyStr) : PyStr := (s.reverse.dropWhile Char.isWhitespace).reverse

/-- Python `s.strip()`. -/
def pyStrip (s : PyStr) : PyStr := pyRStrip (pyLStrip s)

/-- Python `s[-1:]`: the last character as a one-character string
(empty when `s` is empty). -/
def pyLastSlice (s : PyStr) : PyStr :=
  match s.getLast? with
  | some c => [c]
  | none => []

/-- Python `s.split("\n")`: split on newline, keeping empty pieces. -/
def splitNl : PyStr → List PyStr
  | [] => [[]]
  | c :: t =>
    let r := splitNl t
    if c = '\n' then [] :: r
    else
      match r with
      | h :: rest => (c :: h) :: rest
      | [] => [[c]]

/-- Python `"\n".join(parts)`. -/
def joinNl (parts : List PyStr) : PyStr := (parts.intersperse ['\n']).flatten

/-- Python `"\n".join(s.split("\n")[1:])`: drop the first line of `s`. -/
def dropFirstLine (s : PyStr) : PyStr := joinNl (splitNl s).tail

/-- The `while _line.strip().startswith("#") or _line.strip().startswith("@")`
loop of `get_refs` / `get_all_symbols`, which strips leading comment and
decorator lines from the symbol's source chunk (fuel-indexed; the callers
supply enough fuel). -/
def stripLeadingCD : Nat → PyStr → PyStr
  | 0, s => s
  | Nat.succ fuel, s =>
    if pyStartsWith (pyStrip s) ['#'] || pyStartsWith (pyStrip s) ['@'] then
      stripLeadingCD fuel (dropFirstLine s)
    else s

/-- The `_line` value computed by `get_refs` / `get_all_symbols` from the
symbol's source chunk `line`. -/
def lineAfterStrip (s : PyStr) : PyStr := stripLeadingCD (s.length + 1) s

/-- First line of a chunk. -/
def firstLine (s : PyStr) : PyStr := (splitNl s).headD []

/-- The `full_name = full_name[12:]` stripping of a `__builtin___` prefix at
the top of `check_real_func_char`. -/
def stripBuiltinMark (n : PyStr) : PyStr :=
  if pyStartsWith n ("__builtin___".toList) then n.drop 12 else n

/-- `check_real_func_char(_line, line, real_func_char, full_name, kind, uri,
func_line)` from `base_lsp_client.py` (the `_line`, `uri`, `func_line`
arguments are used only in error messages, and the incoming
`real_func_char` is overwritten with `-1` before use, so they are omitted).
`Except.error ()` models `raise ValueError`. -/
def check_real_func_char (rawLine : PyStr) (fullName : PyStr) (kind : Nat) :
    Except Unit Int :=
  let name := stripBuiltinMark fullName
  if kind = 12 ∨ kind = 6 then
    match pyIndexOf rawLine name with
    | some i =>
      if pyStartsWith (pyStrip (rawLine.drop i)) name then Except.ok (Int.ofNat i)
      else Except.error ()
    | none =>
      if pyStartsWith (pyStrip (pyLastSlice rawLine)) name then Except.ok (-1)
      else Except.error ()
  else if kind = 5 then
    match pyIndexOf rawLine name with
    | some i =>
      if pyStartsWith (rawLine.drop i) name then Except.ok (Int.ofNat i)
      else Except.error ()
    | none => Except.ok (-1)
  else Except.ok (-1)

/-- The per-symbol step of `get_all_symbols` around its call to
`check_real_func_char` (lines 570-581): a raised `ValueError` propagates,
a negative column skips the symbol (`continue`), and otherwise the
`(uri, func_line, real_func_char, name)` request parameters are collected. -/
def harvestParam (uri : String) (funcLine : Nat) (chk : Except Unit Int)
    (name : String) : Except Unit (Option (String × Nat × Int × String)) :=
  match chk with
  | Except.error e => Except.error e
  | Except.ok c => if c < 0 then Except.ok none else Except.ok (some (uri, funcLine, c, name))

/-- Substring containment on Lean strings (Python `p in s`). -/
def strContains (s p : String) : Bool := pyContains s.toList p.toList

/-- The invocation-edge format string shared by the three harvesters:
`f"{refShort}:{refLineNum}:{encl}\tinvoke\t{defShort}:{defLineNum}:{defName}"`.
The line numbers are passed already formatted by each call site. -/
def invokeInfo (refShort : String) (refLineNum : Nat) (encl : String)
    (defShort : String) (defLineNum : Nat) (defName : String) : String :=
  refShort ++ ":" ++ toString refLineNum ++ ":" ++ encl ++ "\tinvoke\t" ++
    defShort ++ ":" ++ toString defLineNum ++ ":" ++ defName

/-- Python f-string rendering of an `Optional[str]` (`None` prints as
`"None"`). -/
def optName : Option String → String
  | some s => s
  | none => "None"

/-- One reference site, as consumed by the edge-assembly loops: the full
reference URI, its root-relative form, the zero-based reference line, and
the enclosing function name resolved by `find_enclosing_function`
(`none` models Python `None`). -/
structure RefSite where
  refUri : String
  refUriShort : String
  line : Nat
  encl : Option String

/-- Edge assembly for one reference in `get_refs`
(`base_lsp_client.py` lines 431-472): filter `tests` / `test_` on the full
URI, then `test` / `docs` / `__init__.py` / `cli.py` on the relative path,
skip a `None` enclosing function, and otherwise build
`f"{ref_uri_short}:{line + 1}:{_func_name}\tinvoke\t{uri_short}:{func_line}:{func_name}"`. -/
def getRefsProcessRef (r : RefSite) (uriShort : String) (funcLine : Nat)
    (funcName : String) : Option String :=
  if strContains r.refUri ("tests") then none
  else if strContains r.refUri ("test_") then none
  else if strContains r.refUriShort ("test") then none
  else if strContains r.refUriShort ("docs") then none
  else if strContains r.refUriShort ("__init__.py") then none
  else if strContains r.refUriShort ("cli.py") then none
  else
    match r.encl with
    | none => none
    | some n => some (invokeInfo r.refUriShort (r.line + 1) n uriShort funcLine funcName)

/-- Edge assembly for one reference in `get_refs_clean`
(`base_lsp_client.py` lines 708-728): same filters as `get_refs`, but the
definition-site line is rendered as `func_line + 1`. -/
def getRefsCleanProcessRef (r : RefSite) (uriShort : String) (funcLine : Nat)
    (funcName : String) : Option String :=
  if strContains r.refUri ("tests") then none
  else if strContains r.refUri ("test_") then none
  else if strContains r.refUriShort ("test") then none
  else if strContains r.refUriShort ("docs") then none
  else if strContains r.refUriShort ("__init__.py") then none
  else if strContains r.refUriShort ("cli.py") then none
  else
    match r.encl with
    | none => none
    | some n => some (invokeInfo r.refUriShort (r.line + 1) n uriShort (funcLine + 1) funcName)

/-- Edge assembly for one reference in `_traverse`
(`base_lsp_client.py` lines 831-858): only the four relative-path filters
are applied, the enclosing name is rendered through the f-string even when
it is `None`, and the definition-site line is rendered as `func_line`. -/
def traverseProcessRef (r : RefSite) (uriShort : String) (funcLine : Nat)
    (funcName : String) : Option String :=
  if strContains r.refUriShort ("test") then none
  else if strContains r.refUriShort ("docs") then none
  else if strContains r.refUriShort ("__init__.py") then none
  else if strContains r.refUriShort ("cli.py") then none
  else
    some (invokeInfo r.refUriShort (r.line + 1) (optName r.encl) uriShort funcLine funcName)

/-- The edges `get_refs` adds for one definition symbol, over its list of
reference sites (the `l_refs` set is modelled as the list of added edges;
set-dedup does not change which strings occur). -/
def getRefsEdges (refs : List RefSite) (uriShort : String) (funcLine : Nat)
    (funcName : String) : List String :=
  refs.filterMap fun r => getRefsProcessRef r uriShort funcLine funcName

/-- The edges `get_refs_clean` adds for one definition symbol. -/
def getRefsCleanEdges (refs : List RefSite) (uriShort : String) (funcLine : Nat)
    (funcName : String) : List String :=
  refs.filterMap fun r => getRefsCleanProcessRef r uriShort funcLine funcName

/-- The edges `_traverse` adds for one definition symbol. -/
def traverseEdges (refs : List RefSite) (uriShort : String) (funcLine : Nat)
    (funcName : String) : List String :=
  refs.filterMap fun r => traverseProcessRef r uriShort funcLine funcName

/-- LSP text-document notifications emitted by `_manage_file_state`. -/
inductive Ev where
  | evOpen (uri langId : String) (version : Nat) (text : String)
  | evChange (uri : String) (version : Nat) (text : String)
  | evClose (uri : String)
deriving DecidableEq, Repr

/-- The per-document state of `BaseLSPClient`: `open_files` (a set of URIs),
`file_versions` (dict URI → int) and `file_states` (dict URI →
(content, language_id, status)). -/
structure FS where
  openF : String → Bool
  ver : String → Option Nat
  fstate : String → Option (String × String × String)

/-- Pointwise update of a string-keyed map (dict assignment / deletion). -/
def upd {α : Type} (f : String → α) (k : String) (v : α) : String → α :=
  fun x => if x = k then v else f x

/-- The client's initial document state (empty set, empty dicts). -/
def FS.init : FS := ⟨fun _ => false, fun _ => none, fun _ => none⟩

/-- `_manage_file_state(uri, "open", content, language_id)`
(`lsp_core.py` lines 328-359). -/
def manageOpen (s : FS) (uri content langId : String) : FS × List Ev :=
  let s1 : FS := { s with fstate := upd s.fstate uri (some (content, langId, "open")) }
  if s1.openF uri then
    let v := (match s1.ver uri with | some n => n | none => 0) + 1
    ({ s1 with ver := upd s1.ver uri (some v) }, [Ev.evChange uri v content])
  else
    ({ s1 with openF := upd s1.openF uri true, ver := upd s1.ver uri (some 1) },
      [Ev.evOpen uri langId 1 content])

/-- `_manage_file_state(uri, "change", content, language_id)`
(`lsp_core.py` lines 360-379); on a URI that is not open it recurses into
the `"open"` action with the default `language_id = ""`. -/
def manageChange (s : FS) (uri content langId : String) : FS × List Ev :=
  let s1 : FS := { s with fstate := upd s.fstate uri (some (content, langId, "change")) }
  if s1.openF uri then
    let v := (match s1.ver uri with | some n => n | none => 0) + 1
    ({ s1 with ver := upd s1.ver uri (some v) }, [Ev.evChange uri v content])
  else
    manageOpen s1 uri content ""

/-- `_manage_file_state(uri, "close")` (`lsp_core.py` lines 380-387). -/
def manageClose (s : FS) (uri : String) : FS × List Ev :=
  if s.openF uri then
    ({ s with openF := upd s.openF uri false, ver := upd s.ver uri none },
      [Ev.evClose uri])
  else (s, [])

/-- `send_did_open(uri, content, language_id)`. -/
def send_did_open (s : FS) (uri content langId : String) : FS × List Ev :=
  manageOpen s uri content langId

/-- `send_did_change(uri, content)` (always uses `language_id = ""`). -/
def send_did_change (s : FS) (uri content : String) : FS × List Ev :=
  manageChange s uri content ""

/-- `send_did_close(uri)` for a non-empty URI. -/
def send_did_close (s : FS) (uri : String) : FS × List Ev :=
  manageClose s uri

/-- A client-driving operation (one public document-sync call). -/
inductive Op where
  | opOpen (uri content langId : String)
  | opChange (uri content : String)
  | opClose (uri : String)

/-- One operation applied to the document state. -/
def stepOp (s : FS) : Op → FS × List Ev
  | Op.opOpen u c lid => send_did_open s u c lid
  | Op.opChange u c => send_did_change s u c
  | Op.opClose u => send_did_close s u

/-- Run a sequence of document-sync operations, collecting all emitted
notifications in order. -/
def runOps (s : FS) : List Op → FS × List Ev
  | [] => (s, [])
  | op :: rest =>
    let r1 := stepOp s op
    let r2 := runOps r1.1 rest
    (r2.1, r1.2 ++ r2.2)

/-- The versions carried by the `textDocument/didChange` notifications for
one URI, in emission order. -/
def changeVersions (u : String) (evs : List Ev) : List Nat :=
  evs.filterMap fun e =>
    match e with
    | Ev.evChange v w _ => if v = u then some w else none
    | _ => none

/-- One step of the per-URI version monitor: tracks the last version event
(didOpen or didChange) for `u` in the current open epoch, and flags a
didChange whose version is not strictly above it. -/
def chkStep (u : String) (cur : Option Nat) : Ev → Option Nat × Bool
  | Ev.evOpen v _ w _ => if v = u then (some w, true) else (cur, true)
  | Ev.evChange v w _ =>
    if v = u then
      match cur with
      | some p => (some w, decide (p < w))
      | none => (some w, false)
    else (cur, true)
  | Ev.evClose v => if v = u then (none, true) else (cur, true)

/-- Run the version monitor over an event trace. -/
def chkRun (u : String) (cur : Option Nat) : List Ev → Option Nat × Bool
  | [] => (cur, true)
  | e :: rest =>
    let r1 := chkStep u cur e
    let r2 := chkRun u r1.1 rest
    (r2.1, r1.2 && r2.2)

/-- Outcome of one `_request` round-trip, as seen by `_request`'s own
control flow: the state guard rejected the call before registering; the
future resolved with a result carrying no `error` field; the future
resolved with an `error` field (`raise LSPError`); `asyncio.wait_for`
timed out; or `_send` raised. -/
inductive ReqOutcome where
  | stateError
  | success (v : Nat)
  | errorResponse
  | timeout
  | sendFail

/-- Remove a key from the pending table (`self._pending.pop(msg_id, None)`). -/
def popId (p : List Nat) (i : Nat) : List Nat := p.filter fun j => j != i

/-- `BaseLSPClient._request` (`lsp_core.py` lines 136-169), restricted to
its effect on the pending-request correlation table: the state guard runs
before the entry is registered; on every other path the entry is
registered and then removed by the `except asyncio.TimeoutError` handler
(timeout) and/or the `finally` block. -/
def requestStep (p : List Nat) (msgId : Nat) (o : ReqOutcome) :
    Except Unit Nat × List Nat :=
  match o with
  | ReqOutcome.stateError => (Except.error (), p)
  | ReqOutcome.success v => (Except.ok v, popId (msgId :: p) msgId)
  | ReqOutcome.errorResponse => (Except.error (), popId (msgId :: p) msgId)
  | ReqOutcome.timeout => (Except.error (), popId (popId (msgId :: p) msgId) msgId)
  | ReqOutcome.sendFail => (Except.error (), popId (msgId :: p) msgId)

/-- Client lifecycle states. -/
inductive CState where
  | stopped
  | starting
  | running
  | stopping
deriving DecidableEq

/-- The parts of `BaseLSPClient` that `shutdown` reads and writes:
lifecycle state, pending-request ids, and whether `self.proc` is set. -/
structure Core where
  cstate : CState
  pending : List Nat
  hasProc : Bool
deriving DecidableEq

/-- Outbound LSP shutdown-handshake messages. -/
inductive OutMsg where
  | reqShutdown
  | notifExit
deriving DecidableEq

/-- `BaseLSPClient.shutdown` (`lsp_core.py` lines 539-578): return
immediately when already STOPPING/STOPPED; otherwise set the state to
STOPPING (line 545), cancel and clear all pending futures (lines 551-555),
then — only if `self.proc` is set and `self.state` is not STOPPING or
STOPPED (line 557, evaluated after the assignment of line 545) — send the
`shutdown` request and `exit` notification; finally the state becomes
STOPPED. -/
def shutdown (c : Core) : Core × List OutMsg :=
  if c.cstate = CState.stopping ∨ c.cstate = CState.stopped then (c, [])
  else
    let c1 : Core := { c with cstate := CState.stopping }
    let c2 : Core := { c1 with pending := [] }
    let msgs :=
      if c2.hasProc ∧ ¬(c2.cstate = CState.stopping ∨ c2.cstate = CState.stopped) then
        [OutMsg.reqShutdown, OutMsg.notifExit]
      else []
    ({ c2 with cstate := CState.stopped }, msgs)

/-- The request payload of `textDocument/references` as built by
`send_references`. -/
structure RefReq where
  method : String
  uri : String
  line : Int
  character : Int
  includeDeclaration : Bool
deriving DecidableEq

/-- Errors `send_references` can surface: `ValueError` for negative
coordinates, or an `LSPError` propagated from `_request`. -/
inductive RefErr where
  | invalidArgument
  | lspError
deriving DecidableEq

/-- `BaseLSPClient.send_references` (`lsp_core.py` lines 501-517):
reject negative coordinates with `ValueError` before sending; otherwise
issue `textDocument/references` with `includeDeclaration = false`
(propagating a request failure), and return the 6-tuple
`(uri, line, character, name, result, duration)`.  `serverResult` is the
outcome of the underlying `_request`, and `duration` the measured elapsed
time. -/
def send_references {α : Type} (uri : String) (line character : Int)
    (name : String) (serverResult : Except Unit α) (duration : Nat) :
    Except RefErr (RefReq × (String × Int × Int × String × α × Nat)) :=
  if line < 0 ∨ character < 0 then Except.error RefErr.invalidArgument
  else
    match serverResult with
    | Except.error _ => Except.error RefErr.lspError
    | Except.ok r =>
      Except.ok (⟨"textDocument/references", uri, line, character, false⟩,
        (uri, line, character, name, r, duration))

/-- `await method(*args)` inside a scheduler worker: a raised exception is
logged and recorded as `None` (`lsp_core.py` lines 427-434, 485-491). -/
def workerResult {A α : Type} (f : A → Except Unit α) (a : A) : Option α :=
  match f a with
  | Except.ok v => some v
  | Except.error _ => none

/-- The result-collection loop of `stream_requests` (`lsp_core.py` lines
421-441): starting from `results = [None] * total`, consume one
`(index, result)` queue message per worker, in completion order `order`,
storing each result at its index. -/
def streamCollect {α : Type} (total : Nat) (out : Nat → Option α)
    (order : List Nat) : List (Option α) :=
  order.foldl (fun res i => res.set i (out i)) (List.replicate total none)

/-- `BaseLSPClient.stream_requests` (`lsp_core.py` lines 408-464), with the
nondeterministic completion order of the workers made explicit as a
permutation `order` of the worker indices. -/
def stream_requests {A α : Type} (f : A → Except Unit α) (args : List A)
    (order : List Nat) : List (Option α) :=
  streamCollect args.length
    (fun i => match args[i]? with
      | some a => workerResult f a
      | none => none)
    order

/-- `BaseLSPClient.batch_requests` (`lsp_core.py` lines 466-494):
`asyncio.gather` returns the per-task results in task order. -/
def batch_requests {A α : Type} (f : A → Except Unit α) (args : List A) :
    List (Option α) :=
  args.map (workerResult f)

/-- Invariant tying the document state to the version monitor for one URI:
when the URI is open the monitor's tracked version is exactly the stored
`file_versions` entry (which exists); when it is closed the monitor tracks
nothing. -/
def Agree (s : FS) (u : String) (cur : Option Nat) : Prop :=
  (s.openF u = true → cur = s.ver u ∧ ∃ n, cur = some n) ∧
    (s.openF u = false → cur = none)

/-- A (Python) identifier-shaped string: non-empty, with non-whitespace
first and last characters.  Hypothesis shape for the cursor-resolution
theorems. -/
def identLike (p : PyStr) : Bool :=
  match p.head?, p.getLast? with
  | some a, some b => !a.isWhitespace && !b.isWhitespace
  | _, _ => false

/-- Folding index-assignments over a list preserves the vector's length. -/
theorem foldl_set_length {α : Type} (out : Nat → Option α) :
    ∀ (l : List Nat) (init : List (Option α)),
      (l.foldl (fun res i => res.set i (out i)) init).length = init.length := by
  intro l
  induction l with
  | nil => intro init; rfl
  | cons i t ih =>
    intro init
    simp only [List.foldl_cons]
    rw [ih]
    exact List.length_set ..

/-- Folding assignments `res[i] := out i` over a duplicate-free list of
in-range indices sets exactly the listed slots. -/
theorem foldl_set_getElem {α : Type} (out : Nat → Option α) :
    ∀ (l : List Nat) (init : List (Option α)), l.Nodup →
      (∀ i, i ∈ l → i < init.length) → ∀ j, j < init.length →
      (l.foldl (fun res i => res.set i (out i)) init)[j]? =
        if j ∈ l then some (out j) else init[j]? := by
  intro l
  induction l with
  | nil => intro init _ _ j _; simp
  | cons i t ih =>
    intro init hnd hlt j hj
    simp only [List.foldl_cons]
    have hlen : (init.set i (out i)).length = init.length := List.length_set ..
    have hnd' : t.Nodup := (List.nodup_cons.mp hnd).2
    have hint : i ∉ t := (List.nodup_cons.mp hnd).1
    have hlt' : ∀ k, k ∈ t → k < (init.set i (out i)).length := by
      intro k hk; rw [hlen]; exact hlt k (List.mem_cons_of_mem _ hk)
    have := ih (init.set i (out i)) hnd' hlt' j (by rw [hlen]; exact hj)
    rw [this]
    by_cases hji : j = i
    · subst hji
      simp [hint, List.getElem?_set_self, hj]
    · simp [List.getElem?_set_ne (fun h => hji h.symm), List.mem_cons, hji]

/-- The version monitor processes a concatenated trace compositionally. -/
theorem chkRun_append (u : String) (cur : Option Nat) (e1 e2 : List Ev) :
    chkRun u cur (e1 ++ e2) =
      ((chkRun u (chkRun u cur e1).1 e2).1,
        (chkRun u cur e1).2 && (chkRun u (chkRun u cur e1).1 e2).2) := by
  induction e1 generalizing cur with
  | nil => simp [chkRun]
  | cons e t ih => simp [chkRun, ih, Bool.and_assoc]

/-- `Agree` only inspects the open flag and version of the given URI. -/
theorem agree_untouched {s s' : FS} {u : String} {cur : Option Nat}
    (ho : s'.openF u = s.openF u) (hv : s'.ver u = s.ver u)
    (h : Agree s u cur) : Agree s' u cur := by
  obtain ⟨h1, h2⟩ := h
  constructor
  · intro hx; rw [hv]; exact h1 (ho ▸ hx)
  · intro hx; exact h2 (ho ▸ hx)

/-- One document-sync operation keeps the version monitor happy and
preserves the `Agree` invariant. -/
theorem step_agree (s : FS) (u : String) (cur : Option Nat) (op : Op)
    (h : Agree s u cur) :
    (chkRun u cur (stepOp s op).2).2 = true ∧
      Agree (stepOp s op).1 u (chkRun u cur (stepOp s op).2).1 := by
  obtain ⟨h1, h2⟩ := h
  cases op with
  | opOpen w c lid =>
    by_cases hw : w = u
    · subst hw
      cases ho : s.openF w with
      | true =>
        obtain ⟨hcur, n, hn⟩ := h1 ho
        have hv : s.ver w = some n := by rw [hcur] at hn; exact hn
        refine ?_
        simp only [stepOp, send_did_open, manageOpen, upd, ho, if_true, hv,
          chkRun, chkStep, if_pos rfl]
        constructor
        · simp [hn]
        · constructor
          · intro _; simp [hn, upd]
          · intro hx; simp [ho, upd] at hx
      | false =>
        simp only [stepOp, send_did_open, manageOpen, upd, ho, Bool.false_eq_true,
          if_false, chkRun, chkStep, if_pos rfl]
        constructor
        · rfl
        · constructor
          · intro _; simp [upd]
          · intro hx; simp [upd] at hx
    · have hw' : ¬ (u = w) := fun hx => hw hx.symm
      cases ho : s.openF w with
      | true =>
        simp only [stepOp, send_did_open, manageOpen, upd, ho, if_true,
          chkRun, chkStep, if_neg hw]
        refine ⟨rfl, ?_⟩
        refine agree_untouched ?_ ?_ ⟨h1, h2⟩ <;> simp [upd, hw']
      | false =>
        simp only [stepOp, send_did_open, manageOpen, upd, ho, Bool.false_eq_true,
          if_false, chkRun, chkStep, if_neg hw]
        refine ⟨rfl, ?_⟩
        refine agree_untouched ?_ ?_ ⟨h1, h2⟩ <;> simp [upd, hw']
  | opChange w c =>
    by_cases hw : w = u
    · subst hw
      cases ho : s.openF w with
      | true =>
        obtain ⟨hcur, n, hn⟩ := h1 ho
        have hv : s.ver w = some n := by rw [hcur] at hn; exact hn
        simp only [stepOp, send_did_change, manageChange, upd, ho, if_true, hv,
          chkRun, chkStep, if_pos rfl]
        constructor
        · simp [hn]
        · constructor
          · intro _; simp [hn, upd]
          · intro hx; simp [ho, upd] at hx
      | false =>
        simp only [stepOp, send_did_change, manageChange, manageOpen, upd, ho,
          Bool.false_eq_true, if_false, chkRun, chkStep, if_pos rfl]
        constructor
        · rfl
        · constructor
          · intro _; simp [upd]
          · intro hx; simp [upd] at hx
    · have hw' : ¬ (u = w) := fun hx => hw hx.symm
      cases ho : s.openF w with
      | true =>
        simp only [stepOp, send_did_change, manageChange, upd, ho, if_true,
          chkRun, chkStep, if_neg hw]
        refine ⟨rfl, ?_⟩
        refine agree_untouched ?_ ?_ ⟨h1, h2⟩ <;> simp [upd, hw']
      | false =>
        simp only [stepOp, send_did_change, manageChange, manageOpen, upd, ho,
          Bool.false_eq_true, if_false, chkRun, chkStep, if_neg hw]
        refine ⟨rfl, ?_⟩
        refine agree_untouched ?_ ?_ ⟨h1, h2⟩ <;> simp [upd, hw']
  | opClose w =>
    by_cases hw : w = u
    · subst hw
      cases ho : s.openF w with
      | true =>
        simp only [stepOp, send_did_close, manageClose, upd, ho, if_true,
          chkRun, chkStep, if_pos rfl]
        constructor
        · rfl
        · constructor
          · intro hx; simp [upd] at hx
          · intro _; rfl
      | false =>
        simp only [stepOp, send_did_close, manageClose, ho, Bool.false_eq_true,
          if_false, chkRun]
        exact ⟨trivial, ⟨fun hx => h1 hx, fun hx => h2 hx⟩⟩
    · cases ho : s.openF w with
      | true =>
        have hw' : ¬ (u = w) := fun hx => hw hx.symm
        simp only [stepOp, send_did_close, manageClose, upd, ho, if_true,
          chkRun, chkStep, if_neg hw]
        refine ⟨rfl, ?_⟩
        refine agree_untouched ?_ ?_ ⟨h1, h2⟩ <;> simp [upd, hw']
      | false =>
        simp only [stepOp, send_did_close, manageClose, ho, Bool.false_eq_true,
          if_false, chkRun]
        exact ⟨trivial, ⟨fun hx => h1 hx, fun hx => h2 hx⟩⟩

/-- Any run of document-sync operations from an `Agree`-consistent state
passes the version monitor. -/
theorem runOps_chk (u : String) :
    ∀ (ops : List Op) (s : FS) (cur : Option Nat), Agree s u cur →
      (chkRun u cur (runOps s ops).2).2 = true ∧
        Agree (runOps s ops).1 u (chkRun u cur (runOps s ops).2).1 := by
  intro ops
  induction ops with
  | nil => intro s cur h; exact ⟨rfl, h⟩
  | cons op rest ih =>
    intro s cur h
    have hstep := step_agree s u cur op h
    have hrest := ih (stepOp s op).1 (chkRun u cur (stepOp s op).2).1 hstep.2
    simp only [runOps]
    rw [chkRun_append]
    exact ⟨by rw [hstep.1, hrest.1]; rfl, hrest.2⟩

/-- When `pyIndexOf` reports index `i`, the pattern is a prefix of the
suffix starting at `i`. -/
theorem pyIndexOf_drop {p : List Char} :
    ∀ {l : List Char} {i : Nat}, pyIndexOf l p = some i →
      p.isPrefixOf (l.drop i) = true := by
  intro l
  induction l with
  | nil =>
    intro i h
    rw [pyIndexOf] at h
    by_cases hp : p.isPrefixOf ([] : List Char)
    · rw [if_pos hp] at h
      cases h
      exact hp
    · rw [if_neg hp] at h
      cases h
  | cons c t ih =>
    intro i h
    rw [pyIndexOf] at h
    by_cases hp : p.isPrefixOf (c :: t)
    · rw [if_pos hp] at h
      cases h
      exact hp
    · rw [if_neg hp] at h
      obtain ⟨k, hk, hik⟩ := Option.map_eq_some'.mp h
      subst hik
      rw [List.drop_succ_cons]
      exact ih hk

/-- A character occurring in a string is found by `pyIndexOf` as a
singleton pattern. -/
theorem pyIndexOf_singleton_mem {a : Char} :
    ∀ {l : List Char}, a ∈ l → (pyIndexOf l [a]).isSome = true := by
  intro l
  induction l with
  | nil => intro h; simp at h
  | cons c t ih =>
    intro h
    rw [pyIndexOf]
    by_cases hp : List.isPrefixOf [a] (c :: t)
    · rw [if_pos hp]; rfl
    · rw [if_neg hp]
      have hac : a ≠ c := by
        intro he
        subst he
        exact hp (by simp [List.isPrefixOf])
      have hat : a ∈ t := by
        rcases List.mem_cons.mp h with h1 | h2
        · exact absurd h1 hac
        · exact h2
      rw [show (Option.map (fun x => x + 1) (pyIndexOf t [a])).isSome =
        (pyIndexOf t [a]).isSome from by cases pyIndexOf t [a] <;> rfl]
      exact ih hat

/-- The last element of a list is a member of it. -/
theorem getLast?_mem_of_eq {a : Char} {l : List Char}
    (h : l.getLast? = some a) : a ∈ l := by
  rw [← List.head?_reverse] at h
  cases hrev : l.reverse with
  | nil => rw [hrev] at h; cases h
  | cons x xs =>
    rw [hrev] at h
    have hax : a = x := by injection h with h2; exact h2.symm
    rw [← List.mem_reverse, hrev, hax]
    exact List.mem_cons_self x xs

/-- A non-empty prefix with non-whitespace first and last characters
survives Python `strip()` of the enclosing string. -/
theorem prefix_pyStrip {p l : List Char}
    (hpre : p.isPrefixOf l = true) (hne : p ≠ [])
    (hh : ∀ c, p.head? = some c → c.isWhitespace = false)
    (hl : ∀ c, p.getLast? = some c → c.isWhitespace = false) :
    p.isPrefixOf (pyStrip l) = true := by
  obtain ⟨r, hr⟩ := List.isPrefixOf_iff_prefix.mp hpre
  obtain ⟨c0, p', hp⟩ : ∃ c0 p', p = c0 :: p' := by
    cases p with
    | nil => exact absurd rfl hne
    | cons x xs => exact ⟨x, xs, rfl⟩
  have hc0 : c0.isWhitespace = false := hh c0 (by rw [hp]; rfl)
  obtain ⟨b, hb⟩ : ∃ b, p.getLast? = some b := by
    rw [hp]
    cases hx : (c0 :: p').getLast? with
    | none => exact absurd (List.getLast?_eq_none_iff.mp hx) (by simp)
    | some y => exact ⟨y, rfl⟩
  have hbw : b.isWhitespace = false := hl b hb
  -- the left strip is the identity: `l` starts with the non-whitespace `c0`
  have hlstrip : pyLStrip l = l := by
    rw [← hr, hp, pyLStrip, List.cons_append, List.dropWhile_cons, hc0]
    simp
  rw [pyStrip, hlstrip]
  -- right strip: the trailing-whitespace run of `l = p ++ r` lies inside `r`
  have hrevp : p.reverse.head? = some b := by rw [List.head?_reverse]; exact hb
  obtain ⟨tb, htb⟩ : ∃ tb, p.reverse = b :: tb := by
    cases hrv : p.reverse with
    | nil => rw [hrv] at hrevp; cases hrevp
    | cons x xs =>
      rw [hrv] at hrevp
      cases hrevp
      exact ⟨xs, rfl⟩
  have hdropp : List.dropWhile Char.isWhitespace p.reverse = p.reverse := by
    rw [htb, List.dropWhile_cons, hbw]
    simp
  rw [pyRStrip, ← hr, List.reverse_append, List.dropWhile_append]
  by_cases hre : (List.dropWhile Char.isWhitespace r.reverse).isEmpty = true
  · rw [if_pos hre, hdropp, List.reverse_reverse]
    exact List.isPrefixOf_iff_prefix.mpr (List.prefix_refl p)
  · rw [if_neg hre, List.reverse_append, List.reverse_reverse]
    exact List.isPrefixOf_iff_prefix.mpr (List.prefix_append ..)

/-- When the pattern does not occur in `l` at all, it is not a prefix of
the stripped last-character slice `l[-1:]`. -/
theorem lastSlice_not_pref {l bare : List Char} (hne : bare ≠ [])
    (hnc : (pyIndexOf l bare).isSome = false) :
    bare.isPrefixOf (pyStrip (pyLastSlice l)) = false := by
  obtain ⟨b0, bs, hbare⟩ : ∃ b0 bs, bare = b0 :: bs := by
    cases bare with
    | nil => exact absurd rfl hne
    | cons x xs => exact ⟨x, xs, rfl⟩
  have hniln : bare.isPrefixOf ([] : List Char) = false := by
    rw [hbare]; rfl
  cases hgl : l.getLast? with
  | none =>
    have : l = [] := List.getLast?_eq_none_iff.mp hgl
    subst this
    rw [pyLastSlice]
    exact hniln
  | some a =>
    rw [pyLastSlice, hgl]
    by_cases hwa : a.isWhitespace = true
    · rw [show pyStrip [a] = [] from by
        rw [pyStrip, pyLStrip, List.dropWhile_cons, hwa]; rfl]
      exact hniln
    · rw [show pyStrip [a] = [a] from by
        rw [pyStrip, pyLStrip, List.dropWhile_cons]
        rw [show a.isWhitespace = false from by simp at hwa; exact hwa]
        simp [pyRStrip, List.dropWhile_cons,
          show a.isWhitespace = false from by simp at hwa; exact hwa]]
      by_contra hcon
      have hp : bare.isPrefixOf [a] = true := by
        cases hx : bare.isPrefixOf [a]
        · exact absurd hx hcon
        · rfl
      have : bare = [a] := by
        rcases List.isPrefixOf_iff_prefix.mp hp with ⟨t, ht⟩
        rw [hbare] at ht ⊢
        cases bs with
        | nil =>
          cases t with
          | nil => simpa using ht
          | cons y ys => simp at ht
        | cons z zs => simp at ht
      rw [this] at hnc
      rw [pyIndexOf_singleton_mem (getLast?_mem_of_eq hgl)] at hnc
      cases hnc

/-- C1 counterexample: for the Function symbol `xx` with source chunk
`"def g():\n    xx()"`, `check_real_func_char` returns the non-negative
column 13 even though `xx` does not appear on the first
non-comment/non-decorator line `def g():`, so the returned column is not
characterised by that first line; moreover for a Function symbol whose
name `zz` is not found anywhere, `check_real_func_char` raises
`ValueError` and the harvester step propagates the failure instead of
yielding no references. -/
theorem c1_counterexample :
    check_real_func_char ("def g():\n    xx()".toList) ("xx".toList) 12 =
      Except.ok 13 ∧
    pyContains (firstLine (lineAfterStrip ("def g():\n    xx()".toList)))
      ("xx".toList) = false ∧
    firstLine (lineAfterStrip ("def g():\n    xx()".toList)) =
      ("def g():".toList) ∧
    check_real_func_char ("def g():".toList) ("zz".toList) 12 =
      Except.error () ∧
    harvestParam "u" 0 (check_real_func_char ("def g():".toList) ("zz".toList) 12)
      "zz" = Except.error () :=
  ⟨rfl, rfl, rfl, rfl, rfl⟩

/-- C1 (amended): for symbols of kind Function (12), Method (6) or Class
(5), `check_real_func_char` returns a non-negative column exactly when
the bare symbol name (after stripping a `__builtin___` prefix) appears as
a substring anywhere in the multi-line source chunk passed to it (not
merely on the first non-comment/non-decorator line); when the name is not
found, a Class symbol yields `-1` and `get_all_symbols` skips it without
failing, but a Function or Method symbol raises `ValueError`. -/
theorem c1_cursor_resolution (chunk fullName : PyStr) (kind : Nat)
    (hk : kind = 12 ∨ kind = 6 ∨ kind = 5)
    (hid : identLike (stripBuiltinMark fullName) = true) :
    ((∃ i : Int, check_real_func_char chunk fullName kind = Except.ok i ∧ 0 ≤ i) ↔
      pyContains chunk (stripBuiltinMark fullName) = true) ∧
    (pyContains chunk (stripBuiltinMark fullName) = false →
      (kind = 5 → check_real_func_char chunk fullName kind = Except.ok (-1) ∧
        ∀ (uri nm : String) (funcLine : Nat),
          harvestParam uri funcLine (check_real_func_char chunk fullName kind) nm =
            Except.ok none) ∧
      ((kind = 12 ∨ kind = 6) →
        check_real_func_char chunk fullName kind = Except.error ())) := by
  -- unpack the identifier-shape hypothesis
  obtain ⟨a, ha, b, hb, haw, hbw⟩ :
      ∃ a, (stripBuiltinMark fullName).head? = some a ∧
        ∃ b, (stripBuiltinMark fullName).getLast? = some b ∧
          a.isWhitespace = false ∧ b.isWhitespace = false := by
    rw [identLike] at hid
    cases hh : (stripBuiltinMark fullName).head? with
    | none => rw [hh] at hid; cases hid
    | some x =>
      cases hg : (stripBuiltinMark fullName).getLast? with
      | none => rw [hh, hg] at hid; cases hid
      | some y =>
        rw [hh, hg] at hid
        refine ⟨x, rfl, y, rfl, ?_, ?_⟩
        · have := (Bool.and_eq_true ..).mp hid
          cases hxw : x.isWhitespace
          · rfl
          · rw [hxw] at this; cases this.1
        · have := (Bool.and_eq_true ..).mp hid
          cases hyw : y.isWhitespace
          · rfl
          · rw [hyw] at this; cases this.2
  have hne : stripBuiltinMark fullName ≠ [] := by
    intro he; rw [he] at ha; cases ha
  have hhd : ∀ c, (stripBuiltinMark fullName).head? = some c →
      c.isWhitespace = false := by
    intro c hc; rw [ha] at hc; injection hc with h2; rw [← h2]; exact haw
  have htl : ∀ c, (stripBuiltinMark fullName).getLast? = some c →
      c.isWhitespace = false := by
    intro c hc; rw [hb] at hc; injection hc with h2; rw [← h2]; exact hbw
  by_cases hor : kind = 12 ∨ kind = 6
  · -- Function / Method
    cases hidx : pyIndexOf chunk (stripBuiltinMark fullName) with
    | some i =>
      have hpref : (stripBuiltinMark fullName).isPrefixOf (chunk.drop i) = true :=
        pyIndexOf_drop hidx
      have hstrip : pyStartsWith (pyStrip (chunk.drop i))
          (stripBuiltinMark fullName) = true :=
        prefix_pyStrip hpref hne hhd htl
      have hcheck : check_real_func_char chunk fullName kind =
          Except.ok (Int.ofNat i) := by
        rw [check_real_func_char, if_pos hor, hidx]
        simp [hstrip]
      have hcont : pyContains chunk (stripBuiltinMark fullName) = true := by
        rw [pyContains, hidx]; rfl
      refine ⟨⟨fun _ => hcont, fun _ => ⟨Int.ofNat i, hcheck, Int.ofNat_nonneg i⟩⟩, ?_⟩
      intro hfalse; rw [hcont] at hfalse; cases hfalse
    | none =>
      have hnc : (pyIndexOf chunk (stripBuiltinMark fullName)).isSome = false := by
        rw [hidx]; rfl
      have hnp : pyStartsWith (pyStrip (pyLastSlice chunk))
          (stripBuiltinMark fullName) = false :=
        lastSlice_not_pref hne hnc
      have hcheck : check_real_func_char chunk fullName kind = Except.error () := by
        rw [check_real_func_char, if_pos hor, hidx]
        simp [hnp]
      refine ⟨⟨?_, ?_⟩, ?_⟩
      · rintro ⟨i, hi, _⟩
        rw [hcheck] at hi
        cases hi
      · intro hcont
        rw [pyContains, hidx] at hcont
        cases hcont
      · intro _
        refine ⟨?_, fun _ => hcheck⟩
        intro hk5
        rcases hor with h | h <;> rw [hk5] at h <;> cases h
  · -- Class
    have hk5 : kind = 5 := by
      rcases hk with h | h | h
      · exact absurd (Or.inl h) hor
      · exact absurd (Or.inr h) hor
      · exact h
    cases hidx : pyIndexOf chunk (stripBuiltinMark fullName) with
    | some i =>
      have hpref : pyStartsWith (chunk.drop i) (stripBuiltinMark fullName) = true :=
        pyIndexOf_drop hidx
      have hcheck : check_real_func_char chunk fullName kind =
          Except.ok (Int.ofNat i) := by
        rw [check_real_func_char, if_neg hor, if_pos hk5, hidx]
        simp [hpref, pyStartsWith]
        exact List.isPrefixOf_iff_prefix.mp hpref
      have hcont : pyContains chunk (stripBuiltinMark fullName) = true := by
        rw [pyContains, hidx]; rfl
      refine ⟨⟨fun _ => hcont, fun _ => ⟨Int.ofNat i, hcheck, Int.ofNat_nonneg i⟩⟩, ?_⟩
      intro hfalse; rw [hcont] at hfalse; cases hfalse
    | none =>
      have hcheck : check_real_func_char chunk fullName kind = Except.ok (-1) := by
        rw [check_real_func_char, if_neg hor, if_pos hk5, hidx]
      refine ⟨⟨?_, ?_⟩, ?_⟩
      · rintro ⟨i, hi, hnn⟩
        rw [hcheck] at hi
        injection hi with h2
        rw [← h2] at hnn
        exact absurd hnn (by decide)
      · intro hcont
        rw [pyContains, hidx] at hcont
        cases hcont
      · intro _
        refine ⟨fun _ => ⟨hcheck, ?_⟩, fun hor2 => absurd hor2 hor⟩
        intro uri nm funcLine
        rw [hcheck]
        rfl

/-- C1 witness: instantiation at the Class symbol `C` with chunk
`"class C:"`. -/
theorem c1_witness :
    ((∃ i : Int, check_real_func_char ("class C:".toList) ("C".toList) 5 =
        Except.ok i ∧ 0 ≤ i) ↔
      pyContains ("class C:".toList) (stripBuiltinMark ("C".toList)) = true) ∧
    (pyContains ("class C:".toList) (stripBuiltinMark ("C".toList)) = false →
      ((5 : Nat) = 5 → check_real_func_char ("class C:".toList) ("C".toList) 5 =
          Except.ok (-1) ∧
        ∀ (uri nm : String) (funcLine : Nat),
          harvestParam uri funcLine
            (check_real_func_char ("class C:".toList) ("C".toList) 5) nm =
            Except.ok none) ∧
      ((5 : Nat) = 12 ∨ (5 : Nat) = 6 →
        check_real_func_char ("class C:".toList) ("C".toList) 5 =
          Except.error ())) :=
  c1_cursor_resolution ("class C:".toList) ("C".toList) 5
    (Or.inr (Or.inr rfl)) rfl

/-- C2 counterexample: `_traverse` adds the edge
`"a.py:5:None\tinvoke\tcli.py:7:g"`, whose caller side ends in the null
name `None` and whose callee side's relative path is `cli.py`, which
matches the `cli.py` filter pattern — so not every edge has a non-null
name on both sides, and the callee side is not filtered. -/
theorem c2_counterexample :
    traverseProcessRef ⟨"a.py", "a.py", 4, none⟩ "cli.py" 7 "g" =
      some ("a.py:5:None\tinvoke\tcli.py:7:g") ∧
    ("a.py:5:None\tinvoke\tcli.py:7:g" ∈
      traverseEdges [⟨"a.py", "a.py", 4, none⟩] "cli.py" 7 "g") ∧
    optName none = "None" ∧
    strContains "cli.py" ("cli.py") = true := by
  refine ⟨rfl, ?_, rfl, rfl⟩
  have h : traverseEdges [⟨"a.py", "a.py", 4, none⟩] "cli.py" 7 "g" =
      ["a.py:5:None\tinvoke\tcli.py:7:g"] := rfl
  rw [h]
  exact List.mem_singleton.mpr rfl

/-- C2 (amended): every edge added by `get_refs` or `get_refs_clean` has a
caller-side relative path containing none of `test`, `docs`,
`__init__.py`, `cli.py`, and a non-null caller-side enclosing name;
`_traverse` guarantees only the caller-side path filter (its enclosing
name may be `None`); the callee side's path is not filtered by any of the
three harvesters. -/
theorem c2_edge_sides (r : RefSite) (uriShort : String) (funcLine : Nat)
    (funcName : String) (e : String) :
    ((getRefsProcessRef r uriShort funcLine funcName = some e ∨
        getRefsCleanProcessRef r uriShort funcLine funcName = some e) →
      strContains r.refUriShort ("test") = false ∧
      strContains r.refUriShort ("docs") = false ∧
      strContains r.refUriShort ("__init__.py") = false ∧
      strContains r.refUriShort ("cli.py") = false ∧
      ∃ n, r.encl = some n) ∧
    (traverseProcessRef r uriShort funcLine funcName = some e →
      strContains r.refUriShort ("test") = false ∧
      strContains r.refUriShort ("docs") = false ∧
      strContains r.refUriShort ("__init__.py") = false ∧
      strContains r.refUriShort ("cli.py") = false) ∧
    (e ∈ getRefsEdges [r] uriShort funcLine funcName →
      getRefsProcessRef r uriShort funcLine funcName = some e) := by
  refine ⟨?_, ?_, ?_⟩
  · intro hsome
    cases hsome with
    | inl h =>
      rw [getRefsProcessRef] at h
      split_ifs at h with h1 h2 h3 h4 h5 h6
      refine ⟨by simpa using h3, by simpa using h4, by simpa using h5, by simpa using h6, ?_⟩
      cases hc : r.encl with
      | none => rw [hc] at h; exact absurd h (by simp)
      | some n => exact ⟨n, rfl⟩
    | inr h =>
      rw [getRefsCleanProcessRef] at h
      split_ifs at h with h1 h2 h3 h4 h5 h6
      refine ⟨by simpa using h3, by simpa using h4, by simpa using h5, by simpa using h6, ?_⟩
      cases hc : r.encl with
      | none => rw [hc] at h; exact absurd h (by simp)
      | some n => exact ⟨n, rfl⟩
  · intro h
    rw [traverseProcessRef] at h
    split_ifs at h with h1 h2 h3 h4
    exact ⟨by simpa using h1, by simpa using h2, by simpa using h3, by simpa using h4⟩
  · intro h
    rw [getRefsEdges] at h
    rcases List.mem_filterMap.mp h with ⟨r', hr', hp⟩
    rw [List.mem_singleton.mp hr'] at hp
    exact hp

/-- C2 witness: instantiation of the `get_refs` branch at a reference site
that produces an edge. -/
theorem c2_witness :
    strContains "a.py" ("test") = false ∧
      strContains "a.py" ("docs") = false ∧
      strContains "a.py" ("__init__.py") = false ∧
      strContains "a.py" ("cli.py") = false ∧
      ∃ n, (⟨"a.py", "a.py", 0, some "f"⟩ : RefSite).encl = some n :=
  (c2_edge_sides ⟨"a.py", "a.py", 0, some "f"⟩ "b.py" 3 "g"
    ("a.py:1:f\tinvoke\tb.py:3:g")).1 (Or.inl rfl)

/-- C3: calling `shutdown()` on a RUNNING client cancels and clears every
pending future and ends in STOPPED, but sends no message at all: the
guard `self.state not in (STOPPING, STOPPED)` at lsp_core.py:557 reads
the state that line 545 has just set to STOPPING, so the LSP `shutdown`
request and `exit` notification are never sent, contrary to the spec. -/
theorem c3_shutdown_sends_no_handshake (c : Core) (h : c.cstate = CState.running) :
    (shutdown c).2 = [] ∧ (shutdown c).1.pending = [] ∧
      (shutdown c).1.cstate = CState.stopped := by
  simp [shutdown, h]

/-- C3 witness: a RUNNING client with one pending future and a live
process. -/
theorem c3_witness :
    (shutdown ⟨CState.running, [7], true⟩).2 = [] ∧
      (shutdown ⟨CState.running, [7], true⟩).1.pending = [] ∧
      (shutdown ⟨CState.running, [7], true⟩).1.cstate = CState.stopped :=
  c3_shutdown_sends_no_handshake ⟨CState.running, [7], true⟩ rfl

/-- C4: for every request issued through `_request` under a fresh message
id, the pending entry registered under that id is removed from the
correlation table before the call returns, on every outcome (state-guard
rejection, success, error response, timeout, send failure), and entries
of other ids are untouched. -/
theorem c4_request_clears_pending (p : List Nat) (msgId : Nat) (o : ReqOutcome)
    (h : msgId ∉ p) :
    msgId ∉ (requestStep p msgId o).2 ∧
      ∀ j, j ≠ msgId → (j ∈ (requestStep p msgId o).2 ↔ j ∈ p) := by
  cases o <;>
    simp [requestStep, popId, List.mem_filter, h] <;>
    intro j hj <;> simp [hj]

/-- C4 witness: a timeout outcome for id 3 against a table holding id 5. -/
theorem c4_witness :
    3 ∉ (requestStep [5] 3 ReqOutcome.timeout).2 ∧
      (5 ∈ (requestStep [5] 3 ReqOutcome.timeout).2 ↔ 5 ∈ [5]) :=
  ⟨(c4_request_clears_pending [5] 3 ReqOutcome.timeout (by decide)).1,
    (c4_request_clears_pending [5] 3 ReqOutcome.timeout (by decide)).2 5 (by decide)⟩

/-- C5 counterexample: over the operation sequence open, change, change,
close, open, change on one URI the emitted `didChange` versions are
`[2, 3, 2]`, so a close-then-reopen produces a `didChange` version that
is not strictly greater than every previously emitted version for that
URI. -/
theorem c5_counterexample :
    changeVersions "u" (runOps FS.init
      [Op.opOpen "u" "a" "python", Op.opChange "u" "b", Op.opChange "u" "c",
        Op.opClose "u", Op.opOpen "u" "d" "python", Op.opChange "u" "e"]).2 = [2, 3, 2] ∧
    ¬ List.Pairwise (fun a b => a < b)
      (changeVersions "u" (runOps FS.init
        [Op.opOpen "u" "a" "python", Op.opChange "u" "b", Op.opChange "u" "c",
          Op.opClose "u", Op.opOpen "u" "d" "python", Op.opChange "u" "e"]).2) := by
  constructor
  · rfl
  · intro hp
    rw [show changeVersions "u" (runOps FS.init
      [Op.opOpen "u" "a" "python", Op.opChange "u" "b", Op.opChange "u" "c",
        Op.opClose "u", Op.opOpen "u" "d" "python", Op.opChange "u" "e"]).2 = [2, 3, 2] from rfl] at hp
    have := (List.pairwise_cons.mp hp).1 2 (by decide)
    omega

/-- C5 (amended): for every URI and every sequence of
`send_did_open` / `send_did_change` / `send_did_close` operations, each
emitted `didChange` version is strictly greater than every version
emitted for that URI since its most recent `didOpen` — versions are
strictly increasing within each open epoch, but restart at 1 when a
closed URI is reopened. -/
theorem c5_versions_increase_within_epoch (ops : List Op) (u : String) :
    (chkRun u none (runOps FS.init ops).2).2 = true :=
  (runOps_chk u ops FS.init none
    ⟨fun hx => Bool.noConfusion hx, fun _ => rfl⟩).1

/-- C6: `send_did_open` on a URI that is already open behaves as a
`didChange`: the cached content and language id are replaced, the version
is incremented, and a `textDocument/didChange` (not `didOpen`)
notification is emitted; in particular two consecutive
`send_did_open(u, c)` calls from a state where `u` is not open leave the
version of `u` equal to 2. -/
theorem c6_open_on_open_is_change :
    (∀ (s : FS) (u c lid : String) (n : Nat), s.openF u = true → s.ver u = some n →
      (send_did_open s u c lid).1.ver u = some (n + 1) ∧
      (send_did_open s u c lid).2 = [Ev.evChange u (n + 1) c] ∧
      (send_did_open s u c lid).1.fstate u = some (c, lid, "open")) ∧
    (∀ (s : FS) (u c lid lid2 : String), s.openF u = false →
      (send_did_open (send_did_open s u c lid).1 u c lid2).1.ver u = some 2 ∧
      (send_did_open (send_did_open s u c lid).1 u c lid2).2 = [Ev.evChange u 2 c]) := by
  constructor
  · intro s u c lid n ho hv
    simp [send_did_open, manageOpen, upd, ho, hv]
  · intro s u c lid lid2 ho
    simp [send_did_open, manageOpen, upd, ho]

/-- C6 witness: double `send_did_open` from the initial state. -/
theorem c6_witness :
    (send_did_open (send_did_open FS.init "u" "txt" "python").1 "u" "txt" "python").1.ver "u" = some 2 ∧
      (send_did_open (send_did_open FS.init "u" "txt" "python").1 "u" "txt" "python").2 =
        [Ev.evChange "u" 2 "txt"] :=
  c6_open_on_open_is_change.2 FS.init "u" "txt" "python" "python" rfl

/-- C7: `send_references(uri, line, character, name)` fails with the
invalid-argument error exactly when `line` or `character` is negative;
otherwise, when the underlying request succeeds, it returns the 6-tuple
`(uri, line, character, name, result, duration)` echoing its parameters,
and the request it sends is `textDocument/references` with
`context.includeDeclaration = false`. -/
theorem c7_send_references_contract {α : Type} (uri : String) (line ch : Int)
    (name : String) (res : Except Unit α) (dur : Nat) :
    ((send_references uri line ch name res dur = Except.error RefErr.invalidArgument) ↔
      (line < 0 ∨ ch < 0)) ∧
    (∀ req tup, send_references uri line ch name res dur = Except.ok (req, tup) →
      req.includeDeclaration = false ∧ req.method = "textDocument/references" ∧
      ∃ r, res = Except.ok r ∧ tup = (uri, line, ch, name, r, dur)) := by
  by_cases hneg : line < 0 ∨ ch < 0
  · constructor
    · simp [send_references, hneg]
    · intro req tup habs
      simp [send_references, hneg] at habs
  · constructor
    · cases res <;> simp [send_references, hneg]
    · intro req tup hok
      cases res with
      | error e => simp [send_references, hneg] at hok
      | ok r =>
        simp [send_references, hneg] at hok
        exact ⟨hok.1 ▸ rfl, hok.1 ▸ rfl, r, rfl, hok.2.symm⟩

/-- C7 witness: the error case at `line = -1` and the success case at
`(1, 2)`. -/
theorem c7_witness :
    ((send_references "u" (-1) 2 "f" (Except.ok 9) 5 = Except.error RefErr.invalidArgument) ↔
      ((-1 : Int) < 0 ∨ (2 : Int) < 0)) ∧
    ((⟨"textDocument/references", "u", 1, 2, false⟩ : RefReq).includeDeclaration = false ∧
      (⟨"textDocument/references", "u", 1, 2, false⟩ : RefReq).method = "textDocument/references" ∧
      ∃ r, (Except.ok 9 : Except Unit Nat) = Except.ok r ∧
        (("u", (1 : Int), (2 : Int), "f", (9 : Nat), (5 : Nat))) = ("u", 1, 2, "f", r, 5)) :=
  ⟨(c7_send_references_contract "u" (-1) 2 "f" (Except.ok 9) 5).1,
    (c7_send_references_contract "u" 1 2 "f" (Except.ok (9 : Nat)) 5).2
      ⟨"textDocument/references", "u", 1, 2, false⟩ ("u", 1, 2, "f", 9, 5) rfl⟩

/-- C8 counterexample: for a definition at zero-based line 3, `get_refs`
and `_traverse` build the callee side as `b.py:3:g`, not `b.py:4:g` — the
definition-site line is not converted to one-based. -/
theorem c8_counterexample :
    getRefsProcessRef ⟨"a.py", "a.py", 0, some "f"⟩ "b.py" 3 "g" =
      some ("a.py:1:f\tinvoke\tb.py:3:g") ∧
    traverseProcessRef ⟨"a.py", "a.py", 0, some "f"⟩ "b.py" 3 "g" =
      some ("a.py:1:f\tinvoke\tb.py:3:g") ∧
    ("a.py:1:f\tinvoke\tb.py:3:g" : String) ≠ "a.py:1:f\tinvoke\tb.py:4:g" := by
  exact ⟨rfl, rfl, by decide⟩

/-- C8 (amended): all three harvesters render the reference-site line
one-based (as `line + 1`); the definition-site line is rendered one-based
only by `get_refs_clean`, while `get_refs` and `_traverse` leave it
zero-based. -/
theorem c8_line_numbering (r : RefSite) (uriShort funcName : String)
    (funcLine : Nat) (n : String)
    (hencl : r.encl = some n)
    (hf1 : strContains r.refUri ("tests") = false)
    (hf2 : strContains r.refUri ("test_") = false)
    (hf3 : strContains r.refUriShort ("test") = false)
    (hf4 : strContains r.refUriShort ("docs") = false)
    (hf5 : strContains r.refUriShort ("__init__.py") = false)
    (hf6 : strContains r.refUriShort ("cli.py") = false) :
    getRefsProcessRef r uriShort funcLine funcName =
      some (invokeInfo r.refUriShort (r.line + 1) n uriShort funcLine funcName) ∧
    getRefsCleanProcessRef r uriShort funcLine funcName =
      some (invokeInfo r.refUriShort (r.line + 1) n uriShort (funcLine + 1) funcName) ∧
    traverseProcessRef r uriShort funcLine funcName =
      some (invokeInfo r.refUriShort (r.line + 1) n uriShort funcLine funcName) := by
  refine ⟨?_, ?_, ?_⟩
  · rw [getRefsProcessRef, hf1, hf2, hf3, hf4, hf5, hf6, hencl]; rfl
  · rw [getRefsCleanProcessRef, hf1, hf2, hf3, hf4, hf5, hf6, hencl]; rfl
  · rw [traverseProcessRef, hf3, hf4, hf5, hf6, hencl]; rfl

/-- C8 witness: instantiation at an unfiltered reference site. -/
theorem c8_witness :
    getRefsProcessRef ⟨"x.py", "x.py", 9, some "h"⟩ "y.py" 4 "k" =
      some (invokeInfo "x.py" 10 "h" "y.py" 4 "k") ∧
    getRefsCleanProcessRef ⟨"x.py", "x.py", 9, some "h"⟩ "y.py" 4 "k" =
      some (invokeInfo "x.py" 10 "h" "y.py" 5 "k") ∧
    traverseProcessRef ⟨"x.py", "x.py", 9, some "h"⟩ "y.py" 4 "k" =
      some (invokeInfo "x.py" 10 "h" "y.py" 4 "k") :=
  by exact c8_line_numbering ⟨"x.py", "x.py", 9, some "h"⟩ "y.py" "k" 4 "h"
       rfl rfl rfl rfl rfl rfl rfl

/-- C9: for every operation and argument list, and any completion order of
the workers, `stream_requests` and `batch_requests` return a vector of
the same length as the input whose i-th slot holds the result of applying
the operation to the i-th argument tuple, with `none` in the slot of any
request that failed. -/
theorem c9_requests_in_order {A α : Type} (f : A → Except Unit α) (args : List A)
    (order : List Nat) (hperm : order.Perm (List.range args.length)) :
    (stream_requests f args order).length = args.length ∧
    (batch_requests f args).length = args.length ∧
    ∀ i (hi : i < args.length),
      (stream_requests f args order)[i]? = some (workerResult f (args.get ⟨i, hi⟩)) ∧
      (batch_requests f args)[i]? = some (workerResult f (args.get ⟨i, hi⟩)) := by
  have hnd : order.Nodup := hperm.nodup_iff.mpr (List.nodup_range _)
  have hmem : ∀ i, i ∈ order ↔ i < args.length := by
    intro i
    rw [hperm.mem_iff, List.mem_range]
  refine ⟨?_, ?_, ?_⟩
  · rw [stream_requests, streamCollect, foldl_set_length]
    exact List.length_replicate ..
  · exact List.length_map ..
  · intro i hi
    constructor
    · rw [stream_requests, streamCollect]
      rw [foldl_set_getElem _ order (List.replicate args.length none) hnd
        (by intro k hk; rw [List.length_replicate]; exact (hmem k).mp hk) i
        (by rw [List.length_replicate]; exact hi)]
      rw [if_pos ((hmem i).mpr hi)]
      have : args[i]? = some (args.get ⟨i, hi⟩) := by
        rw [List.getElem?_eq_getElem hi]; rfl
      rw [this]
    · rw [batch_requests, List.getElem?_map, List.getElem?_eq_getElem hi]
      rfl

/-- C9 witness: two requests completing out of order, the first of which
fails. -/
theorem c9_witness :
    (stream_requests (fun n : Nat => if n = 0 then Except.error () else Except.ok n)
        [0, 5] [1, 0]).length = 2 ∧
    (batch_requests (fun n : Nat => if n = 0 then Except.error () else Except.ok n)
        [0, 5]).length = 2 ∧
    (stream_requests (fun n : Nat => if n = 0 then Except.error () else Except.ok n)
        [0, 5] [1, 0])[0]? =
      some (workerResult (fun n : Nat => if n = 0 then Except.error () else Except.ok n) 0) := by
  have h := c9_requests_in_order
    (fun n : Nat => if n = 0 then Except.error () else Except.ok n)
    [0, 5] [1, 0] (by decide)
  exact ⟨h.1, h.2.1, (h.2.2 0 (by decide)).1⟩

/-- C10: `send_did_change(uri, content)` on a URI that is not open
registers the document and emits a `textDocument/didOpen` notification
with version 1 whose `languageId` is the empty string — the fall-through
from the change action to the open action never carries a caller-supplied
language id. -/
theorem c10_change_unopened_opens_with_empty_lang (s : FS) (u c : String)
    (h : s.openF u = false) :
    (send_did_change s u c).2 = [Ev.evOpen u "" 1 c] ∧
      (send_did_change s u c).1.openF u = true ∧
      (send_did_change s u c).1.ver u = some 1 ∧
      (send_did_change s u c).1.fstate u = some (c, "", "open") := by
  simp [send_did_change, manageChange, manageOpen, upd, h]

/-- C10 witness: `send_did_change` from the initial state. -/
theorem c10_witness :
    (send_did_change FS.init "u" "txt").2 = [Ev.evOpen "u" "" 1 "txt"] ∧
      (send_did_change FS.init "u" "txt").1.openF "u" = true ∧
      (send_did_change FS.init "u" "txt").1.ver "u" = some 1 ∧
      (send_did_change FS.init "u" "txt").1.fstate "u" = some ("txt", "", "open") :=
  c10_change_unopened_opens_with_empty_lang FS.init "u" "txt" rfl
